import Mathlib

/-!
Shallow embedding of the live-statistics, charting and stream-control logic of
the trading frontend: `frontend/js/app.js` (class `TradingApp`),
`frontend/js/charts.js` (object `Charts`) and the WebSocket client module
(class `WebSocketClient`).

Modelling conventions:
* JavaScript numbers are modelled as rationals; the special values a division
  by zero produces (`NaN`, `±Infinity`) are made explicit with `JsVal`.
* JavaScript strings are modelled as `List Char`, with the string methods used
  by the code (`trim`, `toLowerCase`, `endsWith`) given structural-recursive
  models so that they evaluate on concrete inputs.
* Stateful methods become pure functions from the relevant state (and the
  event's data) to the new state together with the observable effect —
  the list of backend requests issued, or whether a chart redraw happened.
-/

/-- Result of a JavaScript arithmetic expression: a finite number, or one of
the IEEE special values that JavaScript produces on division by zero. -/
inductive JsVal where
  | nan
  | posInf
  | negInf
  | num (q : ℚ)
  deriving DecidableEq

/-- JavaScript division `a / b`: for `b = 0` it yields `NaN` when `a = 0` and
`±Infinity` otherwise; for `b ≠ 0` the exact quotient (rational model of the
float result). -/
def jsDiv (a b : ℚ) : JsVal :=
  if b = 0 then
    if a = 0 then JsVal.nan else if 0 < a then JsVal.posInf else JsVal.negInf
  else JsVal.num (a / b)

/-- Multiplication of a JavaScript value by the positive literal `100`, as in
the percent-change computation: `NaN` and the infinities are absorbing, a
finite value is scaled. -/
def jsTimes100 : JsVal → JsVal
  | JsVal.nan => JsVal.nan
  | JsVal.posInf => JsVal.posInf
  | JsVal.negInf => JsVal.negInf
  | JsVal.num q => JsVal.num (q * 100)

/-- The whitespace characters relevant to JavaScript's `String.trim`. -/
def isJsSpace (c : Char) : Bool :=
  c == ' ' || c == '\t' || c == '\n' || c == '\r'

/-- `String.prototype.trim`: drop whitespace from both ends. -/
def jsTrim (s : List Char) : List Char :=
  ((s.dropWhile isJsSpace).reverse.dropWhile isJsSpace).reverse

/-- Lower-casing of one ASCII character, as `toLowerCase` acts on the
symbol strings used by the app. -/
def lowerChar (c : Char) : Char :=
  if 'A' ≤ c ∧ c ≤ 'Z' then Char.ofNat (c.toNat + 32) else c

/-- `String.prototype.toLowerCase` on the character list model. -/
def jsToLower (s : List Char) : List Char := s.map lowerChar

/-- `String.prototype.endsWith t`: the last `t.length` characters equal `t`. -/
def jsEndsWith (s t : List Char) : Bool :=
  s.reverse.take t.length == t.reverse

namespace TradingApp

/-- `app.js` line 357: `const mean = prices.reduce((a, b) => a + b, 0) / prices.length`. -/
def mean (prices : List ℚ) : ℚ :=
  prices.foldl (· + ·) 0 / prices.length

/-- `app.js` line 360:
`const variance = prices.reduce((sum, p) => sum + Math.pow(p - mean, 2), 0) / prices.length`. -/
def variance (prices : List ℚ) : ℚ :=
  prices.foldl (fun sum p => sum + (p - mean prices) ^ 2) 0 / prices.length

/-- `app.js` line 361 computes `const std = Math.sqrt(variance)`.  The square
root of a rational is not rational in general, so the computed standard
deviation is characterised by its defining property: `s` is the non-negative
square root of `variance prices`.  For every window appearing in the claims
the root is rational, so a concrete value satisfying this always exists
there. -/
def IsStd (prices : List ℚ) (s : ℚ) : Prop :=
  0 ≤ s ∧ s * s = variance prices

/-- `app.js` line 364: `Math.min(...prices)` for a nonempty spread (the empty
case, where JavaScript returns `Infinity`, is `none`; `updateLiveStatPrice`
only computes statistics when `Charts.currentData.length > 0`). -/
def mathMin : List ℚ → Option ℚ
  | [] => none
  | h :: t => some (t.foldl min h)

/-- `app.js` line 365: `Math.max(...prices)`. -/
def mathMax : List ℚ → Option ℚ
  | [] => none
  | h :: t => some (t.foldl max h)

/-- `app.js` line 381: `const percentChange = ((price - mean) / mean) * 100`. -/
def percentChange (prices : List ℚ) (price : ℚ) : JsVal :=
  jsTimes100 (jsDiv (price - mean prices) (mean prices))

/-- `app.js` line 389: `const zScore = (price - mean) / std`, where `s` stands
for the value of `std = Math.sqrt(variance)` (see `IsStd`).  There is no guard
against `std = 0`. -/
def zScore (prices : List ℚ) (price s : ℚ) : JsVal :=
  jsDiv (price - mean prices) s

/-- `app.js` line 397: `const distanceMean = price - mean`. -/
def distanceMean (prices : List ℚ) (price : ℚ) : ℚ :=
  price - mean prices

/-- `app.js` lines 244–249, `getPriceChange(symbol, currentPrice)`: the
`lastPrices` object is an association list keyed by symbol.  The JavaScript
expression `this.lastPrices[symbol] || currentPrice` falls back to
`currentPrice` both when the key is absent and when the stored value is the
falsy number `0`.  Returns the updated map and the reported change. -/
def getPriceChange (lastPrices : List (List Char × ℚ)) (symbol : List Char)
    (currentPrice : ℚ) : List (List Char × ℚ) × ℚ :=
  let lastPrice :=
    match lastPrices.lookup symbol with
    | none => currentPrice
    | some v => if v = 0 then currentPrice else v
  ((symbol, currentPrice) :: lastPrices, currentPrice - lastPrice)

/-- The `/stream/status` payload consumed by `addSymbol`/`removeSymbol`:
whether the stream is running and the currently tracked symbols. -/
structure StreamStatus where
  running : Bool
  symbols : List (List Char)
  deriving DecidableEq

/-- The stream-control requests the frontend can issue to the backend
(`api.stopStream()` and `api.startStream(symbols)`). -/
inductive StreamCmd where
  | stopStream
  | startStream (symbols : List (List Char))
  deriving DecidableEq

/-- `app.js` lines 576–617, `addSymbol()`: the sequence of stream-control
requests issued, as a function of the current stream status and the raw
input-field text.  The input is trimmed and lower-cased; an empty symbol, a
symbol not ending in `"usdt"`, or an already-tracked symbol only produces a
toast and issues no request. -/
def addSymbol (status : StreamStatus) (input : List Char) : List StreamCmd :=
  let symbol := jsToLower (jsTrim input)
  if symbol = [] then []
  else if !(jsEndsWith symbol "usdt".data) then []
  else if symbol ∈ status.symbols then []
  else
    (if status.running then [StreamCmd.stopStream] else []) ++
      [StreamCmd.startStream (status.symbols ++ [symbol])]

/-- `app.js` lines 620–646, `removeSymbol(symbol)`: removing the last tracked
symbol is refused; otherwise the stream is stopped when running and restarted
with the filtered symbol list. -/
def removeSymbol (status : StreamStatus) (symbol : List Char) : List StreamCmd :=
  if status.symbols.length ≤ 1 then []
  else
    (if status.running then [StreamCmd.stopStream] else []) ++
      [StreamCmd.startStream (status.symbols.filter (fun s => s ≠ symbol))]

end TradingApp

namespace Charts

/-- One OHLCV candlestick of `Charts.currentData` (`charts.js`). -/
structure Bar where
  timestamp : String
  «open» : ℚ
  high : ℚ
  low : ℚ
  close : ℚ
  volume : ℚ
  deriving DecidableEq

/-- The bar invariant of the specification:
`low ≤ open, close ≤ high` and `volume ≥ 0`. -/
def BarInvariant (b : Bar) : Prop :=
  b.low ≤ b.«open» ∧ b.«open» ≤ b.high ∧ b.low ≤ b.close ∧ b.close ≤ b.high ∧
    0 ≤ b.volume

/-- The mutation `charts.js` lines 213–223 applies to the last candle:
`close = price`; `high = price` when `price > high`; `low = price` when
`price < low`; all other fields untouched. -/
def updateCandle (b : Bar) (price : ℚ) : Bar :=
  { b with
    close := price
    high := if price > b.high then price else b.high
    low := if price < b.low then price else b.low }

/-- `charts.js` lines 205–243, `updateLastBar(containerId, price)` restricted
to its effect on `this.currentData`: with no data it does nothing, otherwise
it rewrites the bar at `lastIndex = currentData.length - 1`. -/
def updateLastBar (data : List Bar) (price : ℚ) : List Bar :=
  match data.getLast? with
  | none => data
  | some b => data.dropLast ++ [updateCandle b price]

/-- `charts.js` line 11: `updateThrottle: 100`  (milliseconds). -/
def updateThrottle : ℤ := 100

/-- The part of the `Charts` object state that `updateLivePrice` reads and
writes: the loaded bars, the remembered live price, and `lastUpdateTime`
(initially `0`, `charts.js` line 10). -/
structure ChartState where
  currentData : List Bar
  currentPrice : Option ℚ
  lastUpdateTime : ℤ
  deriving DecidableEq

/-- `charts.js` lines 169–200, `updateLivePrice(containerId, price)` at clock
reading `now = Date.now()`: returns the new state and whether the invocation
got past the throttle gate (committing `lastUpdateTime = now` and the new
`currentPrice`, and issuing the Plotly update). -/
def updateLivePrice (s : ChartState) (now : ℤ) (price : ℚ) : ChartState × Bool :=
  if s.currentData.length = 0 then (s, false)
  else if now - s.lastUpdateTime < updateThrottle then (s, false)
  else ({ s with lastUpdateTime := now, currentPrice := some price }, true)

end Charts

/-- The reconnect-relevant fields of the WebSocket client, initialised in the
constructor to `reconnectDelay = 1000`, `maxReconnectDelay = 30000`,
`reconnectAttempts = 0`. -/
structure WebSocketClient where
  reconnectDelay : ℕ
  maxReconnectDelay : ℕ
  reconnectAttempts : ℕ
  deriving DecidableEq

namespace WebSocketClient

/-- The constructor state of `new WebSocketClient(url)`. -/
def initial : WebSocketClient :=
  { reconnectDelay := 1000, maxReconnectDelay := 30000, reconnectAttempts := 0 }

/-- The `onopen` handler resets `reconnectAttempts = 0` and
`reconnectDelay = 1000`, so the attempt budget counts consecutive failures. -/
def onOpen (c : WebSocketClient) : WebSocketClient :=
  { c with reconnectAttempts := 0, reconnectDelay := 1000 }

/-- `reconnect()`: when fewer than 10 attempts have been made, a retry is
scheduled after the current `reconnectDelay` milliseconds, the attempt counter
is incremented and the delay is doubled with cap `maxReconnectDelay`;
otherwise nothing is scheduled.  Returns the new state and the scheduled
delay, `none` when no retry was scheduled. -/
def reconnect (c : WebSocketClient) : WebSocketClient × Option ℕ :=
  if c.reconnectAttempts < 10 then
    ({ c with
        reconnectAttempts := c.reconnectAttempts + 1
        reconnectDelay := min (c.reconnectDelay * 2) c.maxReconnectDelay },
      some c.reconnectDelay)
  else (c, none)

/-- The delays scheduled along a run of `n` consecutive connection failures:
each failed `connect` fires `onclose`, which calls `reconnect`; the run stops
as soon as `reconnect` schedules nothing. -/
def reconnectTrace : WebSocketClient → ℕ → List ℕ
  | _, 0 => []
  | c, n + 1 =>
    match c.reconnect with
    | (c', some d) => d :: reconnectTrace c' n
    | (_, none) => []

end WebSocketClient

/-- A concrete bar used to instantiate witnesses. -/
def sampleBar : Charts.Bar :=
  { timestamp := "2024-01-01T00:00:00Z", «open» := 10, high := 20, low := 5,
    close := 15, volume := 3 }

section Helpers

lemma foldl_add_eq_sum (l : List ℚ) (a : ℚ) : l.foldl (· + ·) a = a + l.sum := by
  induction l generalizing a with
  | nil => simp
  | cons x t ih => simp [ih]; ring

lemma foldl_add_map_eq_sum (g : ℚ → ℚ) (l : List ℚ) (a : ℚ) :
    l.foldl (fun s p => s + g p) a = a + (l.map g).sum := by
  induction l generalizing a with
  | nil => simp
  | cons x t ih => simp [ih]; ring

lemma mean_eq_sum_div (ps : List ℚ) : TradingApp.mean ps = ps.sum / ps.length := by
  unfold TradingApp.mean
  rw [foldl_add_eq_sum, zero_add]

lemma variance_eq_spec (ps : List ℚ) :
    TradingApp.variance ps =
      (ps.map fun p => (p - ps.sum / ps.length) ^ 2).sum / ps.length := by
  unfold TradingApp.variance
  rw [foldl_add_map_eq_sum, zero_add]
  simp only [mean_eq_sum_div]

lemma foldl_min_le_init (t : List ℚ) (a : ℚ) : t.foldl min a ≤ a := by
  induction t generalizing a with
  | nil => simp
  | cons x xs ih => exact le_trans (ih (min a x)) (min_le_left a x)

lemma foldl_min_le_mem (t : List ℚ) (a x : ℚ) (hx : x ∈ t) : t.foldl min a ≤ x := by
  induction t generalizing a with
  | nil => cases hx
  | cons y ys ih =>
    rcases List.mem_cons.mp hx with h | h
    · subst h
      exact le_trans (foldl_min_le_init ys (min a x)) (min_le_right a x)
    · exact ih (min a y) h

lemma foldl_min_mem (t : List ℚ) (a : ℚ) : t.foldl min a = a ∨ t.foldl min a ∈ t := by
  induction t generalizing a with
  | nil => exact Or.inl rfl
  | cons y ys ih =>
    rcases ih (min a y) with h | h
    · rcases min_choice a y with hc | hc
      · exact Or.inl (by simpa [hc] using h)
      · exact Or.inr (by
          rw [List.foldl_cons, h, hc]
          exact List.mem_cons_self y ys)
    · exact Or.inr (List.mem_cons_of_mem _ h)

lemma foldl_max_init_le (t : List ℚ) (a : ℚ) : a ≤ t.foldl max a := by
  induction t generalizing a with
  | nil => simp
  | cons x xs ih => exact le_trans (le_max_left a x) (ih (max a x))

lemma foldl_max_mem_le (t : List ℚ) (a x : ℚ) (hx : x ∈ t) : x ≤ t.foldl max a := by
  induction t generalizing a with
  | nil => cases hx
  | cons y ys ih =>
    rcases List.mem_cons.mp hx with h | h
    · subst h
      exact le_trans (le_max_right a x) (foldl_max_init_le ys (max a x))
    · exact ih (max a y) h

lemma foldl_max_mem (t : List ℚ) (a : ℚ) : t.foldl max a = a ∨ t.foldl max a ∈ t := by
  induction t generalizing a with
  | nil => exact Or.inl rfl
  | cons y ys ih =>
    rcases ih (max a y) with h | h
    · rcases max_choice a y with hc | hc
      · exact Or.inl (by simpa [hc] using h)
      · exact Or.inr (by
          rw [List.foldl_cons, h, hc]
          exact List.mem_cons_self y ys)
    · exact Or.inr (List.mem_cons_of_mem _ h)

lemma sum_of_const (l : List ℚ) (c : ℚ) (h : ∀ x ∈ l, x = c) :
    l.sum = l.length * c := by
  induction l with
  | nil => simp
  | cons x t ih =>
    have hx : x = c := h x (List.mem_cons_self x t)
    have ht : t.sum = t.length * c := ih fun y hy => h y (List.mem_cons_of_mem _ hy)
    simp [hx, ht]
    ring

lemma mean_of_const (l : List ℚ) (c : ℚ) (hne : l ≠ []) (h : ∀ x ∈ l, x = c) :
    TradingApp.mean l = c := by
  have hlen : (l.length : ℚ) ≠ 0 :=
    Nat.cast_ne_zero.mpr fun h0 => hne (List.length_eq_zero.mp h0)
  rw [mean_eq_sum_div, sum_of_const l c h, mul_comm, mul_div_assoc,
    div_self hlen, mul_one]

lemma variance_of_const (l : List ℚ) (c : ℚ) (hne : l ≠ []) (h : ∀ x ∈ l, x = c) :
    TradingApp.variance l = 0 := by
  unfold TradingApp.variance
  rw [foldl_add_map_eq_sum, zero_add]
  have hz : (l.map fun p => (p - TradingApp.mean l) ^ 2).sum = 0 := by
    apply List.sum_eq_zero
    intro y hy
    obtain ⟨x, hx, rfl⟩ := List.mem_map.mp hy
    rw [h x hx, mean_of_const l c hne h]
    ring
  rw [hz, zero_div]

lemma reconnectTrace_exhausted (n : ℕ) (c : WebSocketClient)
    (h : 10 ≤ c.reconnectAttempts) : c.reconnectTrace n = [] := by
  cases n with
  | zero => rfl
  | succ n =>
    simp [WebSocketClient.reconnectTrace, WebSocketClient.reconnect,
      Nat.not_lt.mpr h]

lemma reconnectTrace_stable (n : ℕ) :
    ∀ c : WebSocketClient, 10 - c.reconnectAttempts ≤ n →
      c.reconnectTrace n = c.reconnectTrace (10 - c.reconnectAttempts) := by
  induction n with
  | zero =>
    intro c h
    have h0 : 10 - c.reconnectAttempts = 0 := Nat.le_zero.mp h
    rw [h0]
  | succ n ih =>
    intro c h
    by_cases ha : c.reconnectAttempts < 10
    · have hsucc : 10 - c.reconnectAttempts = (10 - (c.reconnectAttempts + 1)) + 1 := by
        omega
      rw [hsucc]
      simp only [WebSocketClient.reconnectTrace, WebSocketClient.reconnect,
        if_pos ha]
      have := ih { c with
          reconnectAttempts := c.reconnectAttempts + 1
          reconnectDelay := min (c.reconnectDelay * 2) c.maxReconnectDelay }
        (by simpa using by omega)
      simpa using this
    · have h10 : 10 ≤ c.reconnectAttempts := Nat.not_lt.mp ha
      rw [reconnectTrace_exhausted _ _ h10, reconnectTrace_exhausted _ _ h10]

lemma reconnectTrace_length (n : ℕ) :
    ∀ c : WebSocketClient,
      (c.reconnectTrace n).length ≤ 10 - c.reconnectAttempts := by
  induction n with
  | zero => intro c; simp [WebSocketClient.reconnectTrace]
  | succ n ih =>
    intro c
    by_cases ha : c.reconnectAttempts < 10
    · simp only [WebSocketClient.reconnectTrace, WebSocketClient.reconnect,
        if_pos ha, List.length_cons]
      have := ih { c with
          reconnectAttempts := c.reconnectAttempts + 1
          reconnectDelay := min (c.reconnectDelay * 2) c.maxReconnectDelay }
      simp at this
      omega
    · rw [reconnectTrace_exhausted _ _ (Nat.not_lt.mp ha)]
      simp

end Helpers

/-- C2: for every non-empty close-price list, the recomputed statistics are
the arithmetic mean, the population variance (division by `n`, not `n − 1`) —
hence the computed `std = Math.sqrt(variance)` is the population standard
deviation — and min/max are the extrema of the same list. -/
theorem updateLiveStatPrice_stats_spec (ps : List ℚ) (hne : ps ≠ []) :
    TradingApp.mean ps = ps.sum / ps.length ∧
    TradingApp.variance ps =
      (ps.map fun p => (p - ps.sum / ps.length) ^ 2).sum / ps.length ∧
    (∀ s : ℚ, TradingApp.IsStd ps s →
      0 ≤ s ∧
        s * s = (ps.map fun p => (p - ps.sum / ps.length) ^ 2).sum / ps.length) ∧
    (∃ mn, TradingApp.mathMin ps = some mn ∧ mn ∈ ps ∧ ∀ x ∈ ps, mn ≤ x) ∧
    (∃ mx, TradingApp.mathMax ps = some mx ∧ mx ∈ ps ∧ ∀ x ∈ ps, x ≤ mx) := by
  refine ⟨mean_eq_sum_div ps, variance_eq_spec ps, ?_, ?_, ?_⟩
  · intro s hs
    exact ⟨hs.1, by rw [hs.2, variance_eq_spec]⟩
  · cases ps with
    | nil => cases hne rfl
    | cons h t =>
      refine ⟨t.foldl min h, rfl, ?_, ?_⟩
      · rcases foldl_min_mem t h with he | he
        · rw [he]; exact List.mem_cons_self h t
        · exact List.mem_cons_of_mem _ he
      · intro x hx
        rcases List.mem_cons.mp hx with rfl | hx
        · exact foldl_min_le_init t _
        · exact foldl_min_le_mem t h x hx
  · cases ps with
    | nil => cases hne rfl
    | cons h t =>
      refine ⟨t.foldl max h, rfl, ?_, ?_⟩
      · rcases foldl_max_mem t h with he | he
        · rw [he]; exact List.mem_cons_self h t
        · exact List.mem_cons_of_mem _ he
      · intro x hx
        rcases List.mem_cons.mp hx with rfl | hx
        · exact foldl_max_init_le t _
        · exact foldl_max_mem_le t h x hx

/-- Witness for C2 at the concrete window `[90, 110]`. -/
theorem updateLiveStatPrice_stats_spec_witness :
    ([(90 : ℚ), 110] ≠ []) ∧
    (TradingApp.mean [(90 : ℚ), 110] = [(90 : ℚ), 110].sum / [(90 : ℚ), 110].length ∧
      TradingApp.variance [(90 : ℚ), 110] =
        ([(90 : ℚ), 110].map fun p =>
          (p - [(90 : ℚ), 110].sum / [(90 : ℚ), 110].length) ^ 2).sum /
          [(90 : ℚ), 110].length ∧
      (∀ s : ℚ, TradingApp.IsStd [(90 : ℚ), 110] s →
        0 ≤ s ∧
          s * s = ([(90 : ℚ), 110].map fun p =>
            (p - [(90 : ℚ), 110].sum / [(90 : ℚ), 110].length) ^ 2).sum /
            [(90 : ℚ), 110].length) ∧
      (∃ mn, TradingApp.mathMin [(90 : ℚ), 110] = some mn ∧ mn ∈ [(90 : ℚ), 110] ∧
        ∀ x ∈ [(90 : ℚ), 110], mn ≤ x) ∧
      (∃ mx, TradingApp.mathMax [(90 : ℚ), 110] = some mx ∧ mx ∈ [(90 : ℚ), 110] ∧
        ∀ x ∈ [(90 : ℚ), 110], x ≤ mx)) :=
  ⟨by simp, updateLiveStatPrice_stats_spec [90, 110] (by simp)⟩

/-- C3: for any window with mean 100 and population standard deviation 10
(equivalently variance 100) and live price 125, the computed z-score is 2.5,
the percent-change — taken relative to the window mean — is +25, and the
distance from the mean is +25. -/
theorem live_stats_example_values (ps : List ℚ) (s : ℚ)
    (hmean : TradingApp.mean ps = 100) (hvar : TradingApp.variance ps = 100)
    (hstd : TradingApp.IsStd ps s) :
    s = 10 ∧ TradingApp.zScore ps 125 s = JsVal.num (5 / 2) ∧
    TradingApp.percentChange ps 125 = JsVal.num 25 ∧
    TradingApp.distanceMean ps 125 = 25 := by
  obtain ⟨hs0, hss⟩ := hstd
  rw [hvar] at hss
  have h10 : s = 10 := by
    have hfac : (s - 10) * (s + 10) = 0 := by linear_combination hss
    rcases mul_eq_zero.mp hfac with h | h
    · linarith
    · linarith
  subst h10
  refine ⟨rfl, ?_, ?_, ?_⟩
  · simp only [TradingApp.zScore, hmean, jsDiv]
    norm_num
  · simp only [TradingApp.percentChange, hmean, jsDiv]
    norm_num [jsTimes100]
  · simp only [TradingApp.distanceMean, hmean]
    norm_num

/-- Witness for C3 at the concrete window `[90, 110]` (mean 100, population
standard deviation 10) and live price 125. -/
theorem live_stats_example_values_witness :
    TradingApp.mean [(90 : ℚ), 110] = 100 ∧
    TradingApp.variance [(90 : ℚ), 110] = 100 ∧
    TradingApp.IsStd [(90 : ℚ), 110] 10 ∧
    ((10 : ℚ) = 10 ∧ TradingApp.zScore [(90 : ℚ), 110] 125 10 = JsVal.num (5 / 2) ∧
      TradingApp.percentChange [(90 : ℚ), 110] 125 = JsVal.num 25 ∧
      TradingApp.distanceMean [(90 : ℚ), 110] 125 = 25) := by
  have hmean : TradingApp.mean [(90 : ℚ), 110] = 100 := by norm_num [TradingApp.mean]
  have hvar : TradingApp.variance [(90 : ℚ), 110] = 100 := by
    norm_num [TradingApp.variance, TradingApp.mean]
  have hstd : TradingApp.IsStd [(90 : ℚ), 110] 10 := ⟨by norm_num, by rw [hvar]; norm_num⟩
  exact ⟨hmean, hvar, hstd, live_stats_example_values _ _ hmean hvar hstd⟩

/-- C1 counterexample: on the constant window `[100, 100]` the population
standard deviation is 0 (`IsStd` holds of `s = 0`), yet the z-score the code
computes for live price 125 is `Infinity`, not 0. -/
theorem zscore_zero_std_counterexample :
    TradingApp.IsStd [(100 : ℚ), 100] 0 ∧
    TradingApp.zScore [(100 : ℚ), 100] 125 0 = JsVal.posInf ∧
    JsVal.posInf ≠ JsVal.num 0 := by
  refine ⟨⟨le_refl 0, ?_⟩, ?_, by simp⟩
  · norm_num [TradingApp.variance, TradingApp.mean]
  · norm_num [TradingApp.zScore, TradingApp.mean, jsDiv]

/-- C1 amended: on a constant-price window (population standard deviation 0)
the code divides by the zero standard deviation without any guard, so the
z-score it computes and displays is `NaN` (price equal to the mean) or
`±Infinity` — never a finite number, in particular never 0. -/
theorem zscore_zero_std_nonfinite (ps : List ℚ) (c price s : ℚ) (hne : ps ≠ [])
    (hconst : ∀ x ∈ ps, x = c) (hstd : TradingApp.IsStd ps s) :
    (TradingApp.zScore ps price s = JsVal.nan ∨
      TradingApp.zScore ps price s = JsVal.posInf ∨
      TradingApp.zScore ps price s = JsVal.negInf) ∧
    ∀ q : ℚ, TradingApp.zScore ps price s ≠ JsVal.num q := by
  have hvar : TradingApp.variance ps = 0 := variance_of_const ps c hne hconst
  have hs0 : s = 0 := by
    have h2 := hstd.2
    rw [hvar] at h2
    exact mul_self_eq_zero.mp h2
  subst hs0
  unfold TradingApp.zScore jsDiv
  rw [if_pos rfl]
  constructor
  · by_cases h1 : price - TradingApp.mean ps = 0
    · exact Or.inl (by simp [h1])
    · by_cases h2 : 0 < price - TradingApp.mean ps
      · exact Or.inr (Or.inl (by simp [h1, h2]))
      · exact Or.inr (Or.inr (by simp [h1, h2]))
  · intro q
    by_cases h1 : price - TradingApp.mean ps = 0 <;>
      by_cases h2 : 0 < price - TradingApp.mean ps <;>
      simp [h1, h2]

/-- Witness for the amended C1 at the constant window `[100, 100]`,
live price 125 and computed standard deviation 0. -/
theorem zscore_zero_std_nonfinite_witness :
    (TradingApp.zScore [(100 : ℚ), 100] 125 0 = JsVal.nan ∨
      TradingApp.zScore [(100 : ℚ), 100] 125 0 = JsVal.posInf ∨
      TradingApp.zScore [(100 : ℚ), 100] 125 0 = JsVal.negInf) ∧
    ∀ q : ℚ, TradingApp.zScore [(100 : ℚ), 100] 125 0 ≠ JsVal.num q :=
  zscore_zero_std_nonfinite [(100 : ℚ), 100] 100 125 0 (by simp)
    (fun x hx => by simpa using hx)
    ⟨by norm_num, by norm_num [TradingApp.variance, TradingApp.mean]⟩

/-- C4: for every non-empty bar list whose bars all satisfy the invariant
`low ≤ open, close ≤ high ∧ 0 ≤ volume`, and every live price, every bar of
the list after the live-bar update still satisfies the invariant. -/
theorem updateLastBar_preserves_invariant (data : List Charts.Bar) (price : ℚ)
    (hne : data ≠ []) (hinv : ∀ b ∈ data, Charts.BarInvariant b) :
    ∀ b ∈ Charts.updateLastBar data price, Charts.BarInvariant b := by
  intro b hb
  cases hlast : data.getLast? with
  | none =>
    simp only [Charts.updateLastBar, hlast] at hb
    exact hinv b hb
  | some last =>
    simp only [Charts.updateLastBar, hlast] at hb
    rcases List.mem_append.mp hb with h | h
    · exact hinv b (List.dropLast_subset data h)
    · have hbl : b = Charts.updateCandle last price := by simpa using h
      subst hbl
      obtain ⟨h1, h2, h3, h4, h5⟩ := hinv last (List.mem_of_mem_getLast? hlast)
      unfold Charts.BarInvariant Charts.updateCandle
      simp only
      split_ifs with hh hl <;>
        exact ⟨by linarith, by linarith, by linarith, by linarith, h5⟩

/-- Witness for C4: the singleton list `[sampleBar]` updated with price 25. -/
theorem updateLastBar_preserves_invariant_witness :
    ([sampleBar] ≠ ([] : List Charts.Bar)) ∧
    ∀ b ∈ Charts.updateLastBar [sampleBar] 25, Charts.BarInvariant b := by
  refine ⟨by simp, updateLastBar_preserves_invariant [sampleBar] 25 (by simp) ?_⟩
  intro b hb
  have hbs : b = sampleBar := by simpa using hb
  subst hbs
  norm_num [Charts.BarInvariant, sampleBar]

/-- C5: the live-bar update only rewrites the most recent bar, and within it
only the `close`, `high` and `low` fields; the list length, every earlier
bar, and the last bar's `timestamp`, `open` and `volume` are unchanged. -/
theorem updateLastBar_frame (data : List Charts.Bar) (price : ℚ) (hne : data ≠ []) :
    (Charts.updateLastBar data price).length = data.length ∧
    (∀ i : ℕ, i + 1 < data.length →
      (Charts.updateLastBar data price)[i]? = data[i]?) ∧
    ∃ b b', data.getLast? = some b ∧
      (Charts.updateLastBar data price).getLast? = some b' ∧
      b'.timestamp = b.timestamp ∧ b'.«open» = b.«open» ∧ b'.volume = b.volume ∧
      b'.close = price ∧ b'.high = (if price > b.high then price else b.high) ∧
      b'.low = (if price < b.low then price else b.low) := by
  obtain ⟨last, hlast⟩ : ∃ b, data.getLast? = some b := by
    cases h : data.getLast? with
    | none => exact absurd (List.getLast?_eq_none_iff.mp h) hne
    | some b => exact ⟨b, rfl⟩
  have heq : Charts.updateLastBar data price =
      data.dropLast ++ [Charts.updateCandle last price] := by
    simp [Charts.updateLastBar, hlast]
  have hpos : 1 ≤ data.length := by
    cases data with
    | nil => cases hne rfl
    | cons x xs => simp
  refine ⟨?_, ?_, last, Charts.updateCandle last price, hlast, ?_, rfl, rfl, rfl,
    rfl, rfl, rfl⟩
  · rw [heq, List.length_append, List.length_dropLast]
    simp
    omega
  · intro i hi
    have hidrop : i < data.dropLast.length := by
      rw [List.length_dropLast]; omega
    rw [heq, List.getElem?_append, if_pos hidrop, List.dropLast_eq_take,
      List.getElem?_take, if_pos (by omega : i < data.length - 1)]
  · rw [heq]
    exact List.getLast?_concat _

/-- Witness for C5: a two-bar list updated with price 25 — the first bar and
the last bar's `timestamp`, `open`, `volume` are untouched. -/
theorem updateLastBar_frame_witness :
    ([sampleBar, sampleBar] ≠ ([] : List Charts.Bar)) ∧
    ((Charts.updateLastBar [sampleBar, sampleBar] 25).length =
        ([sampleBar, sampleBar] : List Charts.Bar).length ∧
      (∀ i : ℕ, i + 1 < ([sampleBar, sampleBar] : List Charts.Bar).length →
        (Charts.updateLastBar [sampleBar, sampleBar] 25)[i]? =
          ([sampleBar, sampleBar] : List Charts.Bar)[i]?) ∧
      ∃ b b', ([sampleBar, sampleBar] : List Charts.Bar).getLast? = some b ∧
        (Charts.updateLastBar [sampleBar, sampleBar] 25).getLast? = some b' ∧
        b'.timestamp = b.timestamp ∧ b'.«open» = b.«open» ∧ b'.volume = b.volume ∧
        b'.close = 25 ∧ b'.high = (if (25 : ℚ) > b.high then 25 else b.high) ∧
        b'.low = (if (25 : ℚ) < b.low then 25 else b.low)) :=
  ⟨by simp, updateLastBar_frame [sampleBar, sampleBar] 25 (by simp)⟩

/-- C6 counterexample: with tracked set `{btcusdt}`, removing `btcusdt`
(which is in the set) issues no request at all — the code refuses to remove
the last symbol — so the stream is not restarted with the empty set; and
adding `eth` (not in the set) also issues no request, because the symbol does
not end in `"usdt"`. -/
theorem symbol_set_resubmission_counterexample :
    "btcusdt".data ∈ (["btcusdt".data] : List (List Char)) ∧
    TradingApp.removeSymbol ⟨true, ["btcusdt".data]⟩ "btcusdt".data = [] ∧
    "eth".data ∉ (["btcusdt".data] : List (List Char)) ∧
    TradingApp.addSymbol ⟨true, ["btcusdt".data]⟩ "eth".data = [] := by
  exact ⟨by decide, by decide, by decide, by decide⟩

/-- C6 amended: whenever an add actually goes through (normalized symbol
nonempty, ending in `"usdt"`, not yet tracked) the stream is stopped if
running and restarted with exactly `S ∪ {s}`, and whenever a removal goes
through (symbol tracked, at least two symbols tracked) it is restarted with
exactly `S \ {s}`; every start request carries the full resulting set, never
a one-symbol delta. -/
theorem symbol_set_resubmission (st : TradingApp.StreamStatus)
    (input sym : List Char) :
    (jsToLower (jsTrim input) ≠ [] →
      jsEndsWith (jsToLower (jsTrim input)) "usdt".data = true →
      jsToLower (jsTrim input) ∉ st.symbols →
      TradingApp.addSymbol st input =
        (if st.running then [TradingApp.StreamCmd.stopStream] else []) ++
          [TradingApp.StreamCmd.startStream
            (st.symbols ++ [jsToLower (jsTrim input)])] ∧
      ∀ x, x ∈ st.symbols ++ [jsToLower (jsTrim input)] ↔
        x ∈ st.symbols ∨ x = jsToLower (jsTrim input)) ∧
    (sym ∈ st.symbols → 2 ≤ st.symbols.length →
      TradingApp.removeSymbol st sym =
        (if st.running then [TradingApp.StreamCmd.stopStream] else []) ++
          [TradingApp.StreamCmd.startStream
            (st.symbols.filter (fun s => s ≠ sym))] ∧
      ∀ x, x ∈ st.symbols.filter (fun s => s ≠ sym) ↔
        x ∈ st.symbols ∧ x ≠ sym) := by
  constructor
  · intro h1 h2 h3
    refine ⟨?_, ?_⟩
    · simp [TradingApp.addSymbol, h1, h2, h3]
    · intro x
      simp
  · intro hmem hlen
    refine ⟨?_, ?_⟩
    · have hgt : ¬ st.symbols.length ≤ 1 := by omega
      simp [TradingApp.removeSymbol, hgt]
    · intro x
      simp [List.mem_filter]

/-- Witness for the amended C6: adding `" SolUSDT "` to a running stream
tracking `{btcusdt}` stops it and restarts it with both symbols; removing
`ethusdt` from `{btcusdt, ethusdt}` stops and restarts with `{btcusdt}`. -/
theorem symbol_set_resubmission_witness :
    TradingApp.addSymbol ⟨true, ["btcusdt".data]⟩ " SolUSDT ".data =
      [TradingApp.StreamCmd.stopStream,
        TradingApp.StreamCmd.startStream ["btcusdt".data, "solusdt".data]] ∧
    TradingApp.removeSymbol ⟨true, ["btcusdt".data, "ethusdt".data]⟩ "ethusdt".data =
      [TradingApp.StreamCmd.stopStream,
        TradingApp.StreamCmd.startStream ["btcusdt".data]] := by
  constructor
  · have h := (symbol_set_resubmission ⟨true, ["btcusdt".data]⟩ " SolUSDT ".data
      "btcusdt".data).1 (by decide) (by decide) (by decide)
    rw [h.1]
    decide
  · have h := (symbol_set_resubmission ⟨true, ["btcusdt".data, "ethusdt".data]⟩
      [] "ethusdt".data).2 (by decide) (by decide)
    rw [h.1]
    decide

/-- C7 counterexample: starting from the initial chart state
(`lastUpdateTime = 0`), an invocation at `t = 99` is throttled (no update,
state unchanged), and a second invocation at `t = 150` — only 51 ms after the
first — does perform an update and sets `lastUpdateTime := 150`, because the
throttle clock measures from the last performed update, not from the previous
invocation. -/
theorem throttle_within_100ms_counterexample :
    (Charts.updateLivePrice ⟨[sampleBar], none, 0⟩ 99 50).2 = false ∧
    (Charts.updateLivePrice ⟨[sampleBar], none, 0⟩ 99 50).1 = ⟨[sampleBar], none, 0⟩ ∧
    (150 : ℤ) - 99 < Charts.updateThrottle ∧
    (Charts.updateLivePrice
      (Charts.updateLivePrice ⟨[sampleBar], none, 0⟩ 99 50).1 150 51).2 = true ∧
    (Charts.updateLivePrice
      (Charts.updateLivePrice ⟨[sampleBar], none, 0⟩ 99 50).1 150 51).1.lastUpdateTime
      = 150 := by
  exact ⟨rfl, rfl, by decide, rfl, rfl⟩

/-- C7 amended: an invocation less than 100 ms (`updateThrottle`) after the
last *performed* update does nothing and leaves `lastUpdateTime` unchanged;
consequently two consecutively performed updates are always at least
100 ms apart, bounding the chart-update rate regardless of tick arrivals. -/
theorem throttle_spacing :
    (∀ (s : Charts.ChartState) (now : ℤ) (price : ℚ),
      now - s.lastUpdateTime < Charts.updateThrottle →
      Charts.updateLivePrice s now price = (s, false)) ∧
    (∀ (s s1 s2 : Charts.ChartState) (t1 t2 : ℤ) (p1 p2 : ℚ),
      Charts.updateLivePrice s t1 p1 = (s1, true) →
      Charts.updateLivePrice s1 t2 p2 = (s2, true) →
      Charts.updateThrottle ≤ t2 - t1) := by
  constructor
  · intro s now price h
    unfold Charts.updateLivePrice
    by_cases h0 : s.currentData.length = 0
    · rw [if_pos h0]
    · rw [if_neg h0, if_pos h]
  · intro s s1 s2 t1 t2 p1 p2 h1 h2
    unfold Charts.updateLivePrice at h1 h2
    by_cases e0 : s.currentData.length = 0
    · rw [if_pos e0] at h1
      simp at h1
    · rw [if_neg e0] at h1
      by_cases e1 : t1 - s.lastUpdateTime < Charts.updateThrottle
      · rw [if_pos e1] at h1
        simp at h1
      · rw [if_neg e1] at h1
        have hs1 : s1 = { s with lastUpdateTime := t1, currentPrice := some p1 } := by
          have := congrArg Prod.fst h1
          simpa using this.symm
        subst hs1
        dsimp only at h2
        rw [if_neg e0] at h2
        by_cases e3 : t2 - t1 < Charts.updateThrottle
        · rw [if_pos e3] at h2
          simp at h2
        · omega

/-- Witness for the amended C7: an invocation 50 ms after the last performed
update is a no-op, and two performed updates 150 ms apart respect the
100 ms bound. -/
theorem throttle_spacing_witness :
    Charts.updateLivePrice ⟨[sampleBar], none, 0⟩ 50 7 = (⟨[sampleBar], none, 0⟩, false) ∧
    Charts.updateThrottle ≤ (250 : ℤ) - 100 := by
  constructor
  · exact throttle_spacing.1 ⟨[sampleBar], none, 0⟩ 50 7 (by decide)
  · exact throttle_spacing.2 ⟨[sampleBar], none, 0⟩ ⟨[sampleBar], some 1, 100⟩
      ⟨[sampleBar], some 2, 250⟩ 100 250 1 2 rfl rfl

/-- C8: along any run of consecutive connection failures from the constructor
state, at most 10 reconnects are ever scheduled; the scheduled delays are
exactly 1000, 2000, 4000, 8000, 16000 and then 30000 ms (doubling, capped at
`maxReconnectDelay = 30000`); and once `reconnectAttempts` has reached 10,
`reconnect` schedules nothing and leaves the state unchanged — the retry loop
terminates. -/
theorem reconnect_backoff_bounded :
    (∀ n : ℕ, (WebSocketClient.initial.reconnectTrace n).length ≤ 10) ∧
    (∀ n : ℕ, 10 ≤ n → WebSocketClient.initial.reconnectTrace n =
      [1000, 2000, 4000, 8000, 16000, 30000, 30000, 30000, 30000, 30000]) ∧
    (∀ c : WebSocketClient, 10 ≤ c.reconnectAttempts → c.reconnect = (c, none)) := by
  refine ⟨?_, ?_, ?_⟩
  · intro n
    have h := reconnectTrace_length n WebSocketClient.initial
    simpa [WebSocketClient.initial] using h
  · intro n hn
    have hstable := reconnectTrace_stable n WebSocketClient.initial (by simpa using hn)
    rw [hstable]
    decide
  · intro c h
    unfold WebSocketClient.reconnect
    rw [if_neg (Nat.not_lt.mpr h)]

/-- Witness for C8: the failure run of length 12 schedules exactly the ten
capped delays, and a client with 10 recorded attempts schedules nothing. -/
theorem reconnect_backoff_bounded_witness :
    (WebSocketClient.initial.reconnectTrace 12).length ≤ 10 ∧
    WebSocketClient.initial.reconnectTrace 12 =
      [1000, 2000, 4000, 8000, 16000, 30000, 30000, 30000, 30000, 30000] ∧
    ({ reconnectDelay := 30000, maxReconnectDelay := 30000, reconnectAttempts := 10 } :
        WebSocketClient).reconnect =
      ({ reconnectDelay := 30000, maxReconnectDelay := 30000,
          reconnectAttempts := 10 }, none) :=
  ⟨reconnect_backoff_bounded.1 12,
    reconnect_backoff_bounded.2.1 12 (by decide),
    reconnect_backoff_bounded.2.2 _ (by decide)⟩

/-- C9 counterexample: for a symbol whose recorded last price is the falsy
number 0, the code reports a change of 0 instead of the difference
`currentPrice - 0`, because `this.lastPrices[symbol] || currentPrice` treats
a stored 0 like an absent entry. -/
theorem getPriceChange_zero_baseline_counterexample :
    (TradingApp.getPriceChange [("btcusdt".data, 0)] "btcusdt".data 5).2 = 0 ∧
    (5 : ℚ) - 0 ≠ 0 := by
  constructor
  · norm_num [TradingApp.getPriceChange, List.lookup]
  · norm_num

/-- C9 amended: for a symbol with no recorded price the reported change is 0
and the current price is recorded as the new baseline; for a symbol whose
recorded price is nonzero the reported change is `currentPrice - lastPrice`;
a recorded price of 0 is treated like an unobserved symbol (JavaScript `||`
on a falsy number) and also yields 0. -/
theorem getPriceChange_first_tick_and_diff (m : List (List Char × ℚ))
    (sym : List Char) (p : ℚ) :
    (m.lookup sym = none →
      (TradingApp.getPriceChange m sym p).2 = 0 ∧
      (TradingApp.getPriceChange m sym p).1.lookup sym = some p) ∧
    (∀ v : ℚ, m.lookup sym = some v → v ≠ 0 →
      (TradingApp.getPriceChange m sym p).2 = p - v) ∧
    (m.lookup sym = some 0 → (TradingApp.getPriceChange m sym p).2 = 0) := by
  refine ⟨?_, ?_, ?_⟩
  · intro h
    constructor
    · simp [TradingApp.getPriceChange, h]
    · simp [TradingApp.getPriceChange, List.lookup]
  · intro v hv hv0
    simp [TradingApp.getPriceChange, hv, hv0]
  · intro h
    simp [TradingApp.getPriceChange, h]

/-- Witness for the amended C9: a first tick reports change 0 and records the
baseline; a second tick reports the difference from the recorded price. -/
theorem getPriceChange_first_tick_and_diff_witness :
    ((TradingApp.getPriceChange [] "btcusdt".data 5).2 = 0 ∧
      (TradingApp.getPriceChange [] "btcusdt".data 5).1.lookup "btcusdt".data =
        some 5) ∧
    (TradingApp.getPriceChange [("ethusdt".data, 2)] "ethusdt".data 5).2 = 5 - 2 := by
  constructor
  · exact (getPriceChange_first_tick_and_diff [] "btcusdt".data 5).1 rfl
  · exact (getPriceChange_first_tick_and_diff [("ethusdt".data, 2)]
      "ethusdt".data 5).2.1 2 (by simp [List.lookup]) (by norm_num)

/-- C10: when the entered symbol normalizes to the empty string, does not end
in `"usdt"`, or is already tracked, `addSymbol` issues no stop-stream or
start-stream request at all, leaving the tracked set and stream state
unchanged. -/
theorem addSymbol_rejects_invalid (st : TradingApp.StreamStatus) (input : List Char)
    (h : jsToLower (jsTrim input) = [] ∨
      jsEndsWith (jsToLower (jsTrim input)) "usdt".data = false ∨
      jsToLower (jsTrim input) ∈ st.symbols) :
    TradingApp.addSymbol st input = [] := by
  unfold TradingApp.addSymbol
  rcases h with h | h | h
  · simp [h]
  · simp [h]
  · simp [h]

/-- Witness for C10: adding the already-tracked symbol `btcusdt` issues no
request. -/
theorem addSymbol_rejects_invalid_witness :
    TradingApp.addSymbol ⟨true, ["btcusdt".data]⟩ "btcusdt".data = [] :=
  addSymbol_rejects_invalid _ _ (Or.inr (Or.inr (by decide)))
